import Mathlib

/-!
# Verification of the Intcode interpreter (`src/computer.rs`)

Shallow embedding of the Intcode virtual machine of this repository:
bounds-checked `Ram`, opcode/parameter-mode decoding (`Opcode.tryFrom`,
`Instruction.decode`), the interpreter state (`IntcodeComputer`) and its
operations (`new`, `reset`, `run`, `run_nv`, `process_instruction`,
`execute`).  Rust's `i32` values are modelled as `Int`; the `as usize`
cast on a signed word is modelled by `i32AsUsize` (two's-complement
reinterpretation modulo `2 ^ 64`); Rust's truncating `/` and `%` on `i32`
are `Int.tdiv` and `Int.tmod`.  The unbounded `while !halted` loop is
modelled with explicit fuel; running out of fuel is a distinct outcome
(`RunResult.outOfFuel`), never confused with success or a fault.
-/

deriving instance DecidableEq for Except

namespace Aoc2019

/-- Error taxonomy of the interpreter, carrying the same contextual data as
the error messages in `computer.rs`: out-of-bounds address, invalid
parameter-mode digit (with the offending opcode word), leftover nonzero
digits after three mode slots, unrecognized base operation code (with its
address), exhausted input, and program-text parse failure. -/
inductive Err where
  | oob (address : Nat)
  | invalidMode (digit : Int) (value : Int)
  | tooManyModes (value : Int)
  | invalidOpcode (op : Nat) (address : Nat)
  | inputExhausted
  | parseError
deriving DecidableEq, Repr

/-- `Ram` is the flat memory: `struct Ram(Vec<i32>)`. -/
abbrev Ram := List Int

/-- `Ram::read`: `self.0.get(address).ok_or(...)`. -/
def Ram.read (m : Ram) (address : Nat) : Except Err Int :=
  match m.get? address with
  | some v => .ok v
  | none => .error (.oob address)

/-- `Ram::write`: `self.0.get_mut(address).ok_or(...)` followed by `*v = value`. -/
def Ram.write (m : Ram) (address : Nat) (value : Int) : Except Err Ram :=
  if address < m.length then .ok (m.set address value) else .error (.oob address)

/-- `enum ParameterMode { Address, Value }`. -/
inductive ParameterMode where
  | Address
  | Value
deriving DecidableEq, Repr

/-- `struct Opcode { op: u8, modes: [ParameterMode; 3] }`. -/
structure Opcode where
  op : Nat
  modes : ParameterMode × ParameterMode × ParameterMode
deriving DecidableEq, Repr

/-- One round of the mode-digit loop body in `Opcode::try_from`:
`params_part % 10` must be `0` or `1`. -/
def modeOfDigit (d : Int) (value : Int) : Except Err ParameterMode :=
  if d = 0 then .ok .Address
  else if d = 1 then .ok .Value
  else .error (.invalidMode d value)

/-- Rust `i32 as u8`: keep the low 8 bits of the two's-complement encoding. -/
def i32AsU8 (v : Int) : Nat := (v.emod 256).toNat

/-- Rust `i32 as usize` (64-bit): two's-complement reinterpretation. -/
def i32AsUsize (v : Int) : Nat := (v.emod (2 ^ 64)).toNat

/-- `Opcode::try_from(value)`: strip the low two digits, read three mode
digits least-significant-first with Rust's truncating `/ 10` and `% 10`,
fail on a digit outside `{0, 1}` or on leftover nonzero digits, and take
the base code as `(value % 100) as u8`. -/
def Opcode.tryFrom (value : Int) : Except Err Opcode :=
  let p0 := (value.tdiv 100 : Int)
  let p1 := p0.tdiv 10
  let p2 := p1.tdiv 10
  let p3 := p2.tdiv 10
  match modeOfDigit (p0.tmod 10) value, modeOfDigit (p1.tmod 10) value,
        modeOfDigit (p2.tmod 10) value with
  | .error e, _, _ => .error e
  | .ok _, .error e, _ => .error e
  | .ok _, .ok _, .error e => .error e
  | .ok m0, .ok m1, .ok m2 =>
    if p3 > 0 then
      .error (.tooManyModes value)
    else
      .ok ⟨i32AsU8 (value.tmod 100), (m0, m1, m2)⟩

/-- `enum Instruction`: decoded operands (`i32`) and destinations (`usize`). -/
inductive Instruction where
  | Add (a b : Int) (dst : Nat)
  | Multiply (a b : Int) (dst : Nat)
  | Input (dst : Nat)
  | Output (src : Nat)
  | Halt
deriving DecidableEq, Repr

/-- `Instruction::size`. -/
def Instruction.size : Instruction → Nat
  | .Add _ _ _ => 4
  | .Multiply _ _ _ => 4
  | .Input _ => 2
  | .Output _ => 2
  | .Halt => 0

/-- `Instruction::decode(mem, address)`: parse the opcode word at `address`,
then fetch parameters.  For base codes 1 and 2 the three raw words are
read, the first two are dereferenced through memory again (the decoded
parameter modes are never consulted), and the third is kept as a raw
address; base code 3 and 4 keep their single word as a raw address;
base code 99 is `Halt`; anything else is an invalid-opcode fault. -/
def Instruction.decode (mem : Ram) (address : Nat) : Except Err Instruction := do
  let w ← mem.read address
  let opcode ← Opcode.tryFrom w
  match opcode.op with
  | 1 | 2 =>
    let operand1 ← mem.read (address + 1)
    let operand2 ← mem.read (address + 2)
    let dest ← mem.read (address + 3)
    let operand1v ← mem.read (i32AsUsize operand1)
    let operand2v ← mem.read (i32AsUsize operand2)
    if opcode.op = 1 then
      pure (.Add operand1v operand2v (i32AsUsize dest))
    else
      pure (.Multiply operand1v operand2v (i32AsUsize dest))
  | 3 => do
    let d ← mem.read (address + 1)
    pure (.Input (i32AsUsize d))
  | 4 => do
    let sr ← mem.read (address + 1)
    pure (.Output (i32AsUsize sr))
  | 99 => pure .Halt
  | op => .error (.invalidOpcode op address)

/-- `struct IntcodeComputer`: the parsed program kept as reset baseline,
the working memory, instruction pointer, halted flag, input queue and
output log. -/
structure IntcodeComputer where
  program : List Int
  ram : Ram
  ip : Nat
  halted : Bool
  input : List Int
  output : List Int
deriving DecidableEq, Repr

/-- Result of one `process_instruction` call: Rust's `Result<()>` together
with the mutated `self`.  A fault carries the state as it stands at the
fault point (partial effects included). -/
inductive StepResult where
  | ok (s : IntcodeComputer)
  | fault (e : Err) (s : IntcodeComputer)
deriving DecidableEq, Repr

/-- Result of the `execute` loop under explicit fuel. -/
inductive RunResult where
  | ok (s : IntcodeComputer)
  | fault (e : Err) (s : IntcodeComputer)
  | outOfFuel (s : IntcodeComputer)
deriving DecidableEq, Repr

/-- `IntcodeComputer::process_instruction`: decode at `ip`, apply the
effect, advance `ip` by the instruction's size.  `Input` pops from the END
of the input vector (Rust `Vec::pop`) before attempting the write, so a
failing write still consumes the value; `Output` appends to the output
log; a fault leaves everything else untouched. -/
def IntcodeComputer.process_instruction (s : IntcodeComputer) : StepResult :=
  match Instruction.decode s.ram s.ip with
  | .error e => .fault e s
  | .ok i =>
    match i with
    | .Add a b dst =>
      match s.ram.write dst (a + b) with
      | .error e => .fault e s
      | .ok r => .ok { s with ram := r, ip := s.ip + Instruction.size (.Add a b dst) }
    | .Multiply a b dst =>
      match s.ram.write dst (a * b) with
      | .error e => .fault e s
      | .ok r => .ok { s with ram := r, ip := s.ip + Instruction.size (.Multiply a b dst) }
    | .Halt => .ok { s with halted := true, ip := s.ip + Instruction.size .Halt }
    | .Input dst =>
      match s.input.getLast? with
      | none => .fault .inputExhausted s
      | some v =>
        match s.ram.write dst v with
        | .error e => .fault e { s with input := s.input.dropLast }
        | .ok r =>
          .ok { s with ram := r, input := s.input.dropLast,
                       ip := s.ip + Instruction.size (.Input dst) }
    | .Output src =>
      match s.ram.read src with
      | .error e => .fault e s
      | .ok v =>
        .ok { s with output := s.output ++ [v],
                     ip := s.ip + Instruction.size (.Output src) }

/-- `IntcodeComputer::execute`: `while !self.halted { self.process_instruction()? }`,
with fuel bounding the number of iterations. -/
def IntcodeComputer.execute (fuel : Nat) (s : IntcodeComputer) : RunResult :=
  if s.halted then .ok s
  else
    match fuel with
    | 0 => .outOfFuel s
    | n + 1 =>
      match s.process_instruction with
      | .ok s1 => IntcodeComputer.execute n s1
      | .fault e s1 => .fault e s1

/-- `IntcodeComputer::run(input)`: optionally replace the pending input
vector, then execute. -/
def IntcodeComputer.run (inp : Option (List Int)) (fuel : Nat)
    (s : IntcodeComputer) : RunResult :=
  match inp with
  | some vs => IntcodeComputer.execute fuel { s with input := vs }
  | none => IntcodeComputer.execute fuel s

/-- `IntcodeComputer::run_nv(noun, verb)`: seed addresses 1 and 2, then
execute; a seeding write fault aborts before execution. -/
def IntcodeComputer.run_nv (noun verb : Int) (fuel : Nat)
    (s : IntcodeComputer) : RunResult :=
  match s.ram.write 1 noun with
  | .error e => .fault e s
  | .ok r1 =>
    match r1.write 2 verb with
    | .error e => .fault e { s with ram := r1 }
    | .ok r2 => IntcodeComputer.execute fuel { s with ram := r2 }

/-- `IntcodeComputer::reset`: fresh copy of the program into ram, `ip = 0`,
clear halted, input and output. -/
def IntcodeComputer.reset (s : IntcodeComputer) : IntcodeComputer :=
  { s with ram := s.program, ip := 0, halted := false, input := [], output := [] }

/-- Rust `str::trim` on the character sequence: drop whitespace from both
ends (the program texts in question only use ASCII whitespace). -/
def trimChars (cs : List Char) : List Char :=
  ((cs.dropWhile Char.isWhitespace).reverse.dropWhile Char.isWhitespace).reverse

/-- Rust `str::split(',')`: split at every comma, keeping empty pieces. -/
def splitOnComma : List Char → List (List Char)
  | [] => [[]]
  | c :: rest =>
    match splitOnComma rest with
    | [] => [[c]]
    | t :: ts => if c = ',' then [] :: t :: ts else (c :: t) :: ts

/-- Decimal-digit accumulator of Rust's `str::parse::<i32>` (digits only). -/
def parseDigits : List Char → Nat → Option Nat
  | [], acc => some acc
  | c :: rest, acc =>
    if c.isDigit then parseDigits rest (acc * 10 + (c.toNat - 48)) else none

/-- Rust `str::parse::<i32>`: optional sign, one or more ASCII digits, and
the value must fit in `i32`. -/
def parseI32 (t : List Char) : Except Err Int :=
  let signAndDigits : Int × List Char :=
    match t with
    | '-' :: rest => (-1, rest)
    | '+' :: rest => (1, rest)
    | cs => (1, cs)
  match signAndDigits.2 with
  | [] => .error .parseError
  | ds =>
    match parseDigits ds 0 with
    | none => .error .parseError
    | some n =>
      let v : Int := signAndDigits.1 * n
      if -2147483648 ≤ v ∧ v ≤ 2147483647 then .ok v else .error .parseError

/-- `IntcodeComputer::new(program)`: trim the text, split on commas, trim
each token and parse it as `i32`; the parsed sequence becomes both the
program baseline and the initial ram. -/
def IntcodeComputer.new (program : String) : Except Err IntcodeComputer := do
  let prog ← ((splitOnComma (trimChars program.data)).map trimChars).mapM parseI32
  pure { program := prog, ram := prog, ip := 0, halted := false,
         input := [], output := [] }

/-- A freshly constructed interpreter over an already-parsed program, as
the unit tests build directly from a `Ram` vector. -/
def fromProgram (p : List Int) : IntcodeComputer :=
  { program := p, ram := p, ip := 0, halted := false, input := [], output := [] }

/-- The interpreter state a step result carries (mutated `self` on success,
the state at the fault point on failure). -/
def StepResult.state : StepResult → IntcodeComputer
  | .ok s => s
  | .fault _ s => s

/-- Test-harness composition: construct from program text, run, and demand
success (`none` on a parse error, a fault, or fuel exhaustion). -/
def newAndRun (text : String) (inp : Option (List Int)) (fuel : Nat) :
    Option IntcodeComputer :=
  match IntcodeComputer.new text with
  | .error _ => none
  | .ok s =>
    match IntcodeComputer.run inp fuel s with
    | .ok s1 => some s1
    | .fault _ _ => none
    | .outOfFuel _ => none

/-- The decode-level rejection predicate of the implementation: the opcode
word fails `Opcode::try_from`, or its base code falls into the catch-all
arm of the `match` in `Instruction::decode`. -/
def decodeRejectsWord (w : Int) : Bool :=
  match Opcode.tryFrom w with
  | .error _ => true
  | .ok oc => !(oc.op == 1 || oc.op == 2 || oc.op == 3 || oc.op == 4 || oc.op == 99)

/-- The specification-side acceptance condition on a (nonnegative) opcode
word, in terms of its decimal digits: the lowest two digits form a
recognized base code, each of the next three digits is a parameter-mode
flag in `{0, 1}`, and no nonzero digit remains beyond them. -/
def wordAccepted (n : Nat) : Prop :=
  (n % 100 = 1 ∨ n % 100 = 2 ∨ n % 100 = 3 ∨ n % 100 = 4 ∨ n % 100 = 99) ∧
  n / 100 % 10 ≤ 1 ∧ n / 1000 % 10 ≤ 1 ∧ n / 10000 % 10 ≤ 1 ∧ n / 100000 = 0

instance (n : Nat) : Decidable (wordAccepted n) := by
  unfold wordAccepted
  infer_instance

/-- The specification-side reading of a single mode digit. -/
def modeDigitSpec (d : Nat) : ParameterMode :=
  if d = 1 then .Value else .Address

/-- Reachable interpreter states: everything the public API can produce
from a starting state `s0` — replacing the pending input (`run(Some(..))`),
executed steps (successful or faulting), noun/verb seeding writes, and
resets, in any order and number. -/
inductive Reachable (s0 : IntcodeComputer) : IntcodeComputer → Prop where
  | refl : Reachable s0 s0
  | provide {s : IntcodeComputer} (vs : List Int) :
      Reachable s0 s → Reachable s0 { s with input := vs }
  | step_ok {s s1 : IntcodeComputer} :
      Reachable s0 s → s.process_instruction = .ok s1 → Reachable s0 s1
  | step_fault {s s1 : IntcodeComputer} {e : Err} :
      Reachable s0 s → s.process_instruction = .fault e s1 → Reachable s0 s1
  | seed {s : IntcodeComputer} {r : Ram} (a : Nat) (v : Int) :
      Reachable s0 s → s.ram.write a v = .ok r → Reachable s0 { s with ram := r }
  | reset {s : IntcodeComputer} : Reachable s0 s → Reachable s0 s.reset

/-! ## Supporting lemmas -/

/-- A single step never touches the stored program baseline. -/
theorem process_instruction_program (s : IntcodeComputer) :
    (s.process_instruction).state.program = s.program := by
  unfold IntcodeComputer.process_instruction
  repeat' split
  all_goals rfl

/-- A successful step keeps the program baseline. -/
theorem step_ok_program {s s1 : IntcodeComputer}
    (h : s.process_instruction = .ok s1) : s1.program = s.program := by
  have hp := process_instruction_program s
  rw [h] at hp
  exact hp

/-- A faulting step keeps the program baseline. -/
theorem step_fault_program {s s1 : IntcodeComputer} {e : Err}
    (h : s.process_instruction = .fault e s1) : s1.program = s.program := by
  have hp := process_instruction_program s
  rw [h] at hp
  exact hp

/-- Every reachable state keeps the program baseline of its origin. -/
theorem Reachable.program_eq {s0 s : IntcodeComputer} (h : Reachable s0 s) :
    s.program = s0.program := by
  induction h with
  | refl => rfl
  | provide vs _ ih => exact ih
  | step_ok _ hstep ih => exact (step_ok_program hstep).trans ih
  | step_fault _ hstep ih => exact (step_fault_program hstep).trans ih
  | seed a v _ _ ih => exact ih
  | reset _ ih => exact ih

/-- A halted machine is a fixed point of the execution loop. -/
theorem execute_of_halted (fuel : Nat) (s : IntcodeComputer)
    (h : s.halted = true) : IntcodeComputer.execute fuel s = .ok s := by
  unfold IntcodeComputer.execute
  simp [h]

/-- If a step taken from a non-halted state produces a halted state, the
step decoded the halt instruction, and neither the memory nor the
instruction pointer moved. -/
theorem step_to_halted {s s1 : IntcodeComputer}
    (hs : s.halted = false) (h : s.process_instruction = .ok s1)
    (h1 : s1.halted = true) :
    Instruction.decode s1.ram s1.ip = .ok .Halt ∧ s1.ram = s.ram ∧ s1.ip = s.ip := by
  unfold IntcodeComputer.process_instruction at h
  rcases hdec : Instruction.decode s.ram s.ip with e | i
  · simp only [hdec] at h
    cases h
  · simp only [hdec] at h
    cases i with
    | Add a b dst =>
      rcases hw : s.ram.write dst (a + b) with e | r
      · simp only [hw] at h
        cases h
      · simp only [hw] at h
        cases h
        simp [hs] at h1
    | Multiply a b dst =>
      rcases hw : s.ram.write dst (a * b) with e | r
      · simp only [hw] at h
        cases h
      · simp only [hw] at h
        cases h
        simp [hs] at h1
    | Input dst =>
      rcases hl : s.input.getLast? with _ | v
      · simp only [hl] at h
        cases h
      · simp only [hl] at h
        rcases hw : s.ram.write dst v with e | r
        · simp only [hw] at h
          cases h
        · simp only [hw] at h
          cases h
          simp [hs] at h1
    | Output src =>
      rcases hr : s.ram.read src with e | v
      · simp only [hr] at h
        cases h
      · simp only [hr] at h
        cases h
        simp [hs] at h1
    | Halt =>
      cases h
      exact ⟨hdec, rfl, rfl⟩


/-! ## Claim theorems -/

/-- C5: `read(a)` returns the stored integer when `a < length` and fails
with an out-of-bounds error reporting `a` otherwise; `write(a, v)`
overwrites exactly position `a` (same length, `v` at `a`, every other
position untouched) when `a < length` and fails with the same
out-of-bounds error otherwise, producing no memory at all on failure. -/
theorem ram_read_write_bounds (m : Ram) (a : Nat) (v : Int) :
    (∀ h : a < m.length, m.read a = .ok (m.get ⟨a, h⟩)) ∧
    (a < m.length →
      m.write a v = .ok (m.set a v) ∧
      (m.set a v).length = m.length ∧
      (m.set a v).get? a = some v ∧
      ∀ b, b ≠ a → (m.set a v).get? b = m.get? b) ∧
    (m.length ≤ a → m.read a = .error (.oob a) ∧ m.write a v = .error (.oob a)) := by
  refine ⟨?_, ?_, ?_⟩
  · intro h
    unfold Ram.read
    rw [List.get?_eq_get h]
  · intro h
    refine ⟨?_, by simp, ?_, ?_⟩
    · unfold Ram.write
      rw [if_pos h]
    · exact List.get?_set_eq_of_lt v h
    · intro b hb
      exact List.get?_set_ne v m hb.symm
  · intro h
    constructor
    · unfold Ram.read
      rw [List.get?_eq_none.mpr h]
    · unfold Ram.write
      rw [if_neg (not_lt.mpr h)]

/-- C5 witness: both regimes on the concrete memory `[5, 6]`. -/
theorem ram_read_write_bounds_witness :
    Ram.read [5, 6] 1 = .ok 6 ∧
    Ram.write [5, 6] 1 9 = .ok [5, 9] ∧
    Ram.read [5, 6] 2 = .error (.oob 2) ∧
    Ram.write [5, 6] 2 7 = .error (.oob 2) := by
  refine ⟨?_, ?_, ?_, ?_⟩
  · exact (ram_read_write_bounds [5, 6] 1 9).1 (by decide)
  · exact ((ram_read_write_bounds [5, 6] 1 9).2.1 (by decide)).1
  · exact ((ram_read_write_bounds [5, 6] 2 7).2.2 (by decide)).1
  · exact ((ram_read_write_bounds [5, 6] 2 7).2.2 (by decide)).2

/-- C10: every negative `i32` word, reinterpreted as a `usize` address,
lands at or beyond the end of any memory of length at most `2 ^ 63`, so
resolving it always takes the guarded out-of-bounds branch of both `read`
and `write` and no cell is ever touched. -/
theorem negative_address_always_oob (v : Int) (mem : Ram)
    (hlo : -2147483648 ≤ v) (hv : v < 0) (hlen : mem.length ≤ 2 ^ 63) :
    mem.length ≤ i32AsUsize v ∧
    mem.read (i32AsUsize v) = .error (.oob (i32AsUsize v)) ∧
    ∀ x, mem.write (i32AsUsize v) x = .error (.oob (i32AsUsize v)) := by
  have h63 : (2 : Nat) ^ 63 = 9223372036854775808 := by norm_num
  have hbig : mem.length ≤ i32AsUsize v := by
    unfold i32AsUsize
    have hmod : (v % 18446744073709551616 : Int) = v + 18446744073709551616 := by
      conv_lhs => rw [show v = (v + 18446744073709551616) + 18446744073709551616 * (-1) by ring]
      rw [Int.add_mul_emod_self_left]
      exact Int.emod_eq_of_lt (by omega) (by omega)
    rw [h63] at hlen
    show mem.length ≤ ((v % 18446744073709551616 : Int)).toNat
    rw [hmod]
    omega
  refine ⟨hbig, ?_, ?_⟩
  · unfold Ram.read
    rw [List.get?_eq_none.mpr hbig]
  · intro x
    unfold Ram.write
    rw [if_neg (not_lt.mpr hbig)]

/-- C10 witness: the word `-1` against the one-cell memory `[0]`. -/
theorem negative_address_always_oob_witness :
    (1 : Nat) ≤ i32AsUsize (-1) ∧
    Ram.read [0] (i32AsUsize (-1)) = .error (.oob (i32AsUsize (-1))) ∧
    Ram.write [0] (i32AsUsize (-1)) 7 = .error (.oob (i32AsUsize (-1))) := by
  have h := negative_address_always_oob (-1) [0] (by decide) (by decide) (by norm_num)
  exact ⟨h.1, h.2.1, h.2.2 7⟩

/-- C7: the three documented add/multiply sample programs, parsed from
their program text and run to completion: `"1,0,0,0,99"` ends with
`memory[0] = 2`, `"2,4,4,5,99,0"` with `memory[5] = 9801`, and
`"1,1,1,4,99,5,6,0,99"` with memory `[30,1,1,4,2,5,6,0,99]`; each run
succeeds with no fault. -/
theorem sample_programs_final_memory :
    newAndRun "1,0,0,0,99" none 10 =
      some ⟨[1, 0, 0, 0, 99], [2, 0, 0, 0, 99], 4, true, [], []⟩ ∧
    newAndRun "2,4,4,5,99,0" none 10 =
      some ⟨[2, 4, 4, 5, 99, 0], [2, 4, 4, 5, 99, 9801], 4, true, [], []⟩ ∧
    newAndRun "1,1,1,4,99,5,6,0,99" none 10 =
      some ⟨[1, 1, 1, 4, 99, 5, 6, 0, 99], [30, 1, 1, 4, 2, 5, 6, 0, 99],
            8, true, [], []⟩ := by
  exact ⟨by decide, by decide, by decide⟩

/-- C8: program text `"3,0,4,0,99"` with input `[123]` runs to a halt with
output exactly `[123]`. -/
theorem io_roundtrip_program :
    newAndRun "3,0,4,0,99" (some [123]) 10 =
      some ⟨[3, 0, 4, 0, 99], [123, 0, 4, 0, 99], 4, true, [], [123]⟩ := by
  decide

/-- C1, refuted on the code: word `1101` decodes with modes
(value, value, address), yet `Instruction::decode` dereferences both
operands through memory anyway, so the program `[1101, 2, 3, 0, 99]`
stores `mem[2] + mem[3] = 3` at address 0 instead of the immediate
`2 + 3 = 5` the parameter-mode rule demands. -/
theorem modes_decoded_but_not_applied :
    Opcode.tryFrom 1101 = .ok ⟨1, (.Value, .Value, .Address)⟩ ∧
    Instruction.decode [1101, 2, 3, 0, 99] 0 = .ok (.Add 3 0 0) ∧
    IntcodeComputer.execute 10 (fromProgram [1101, 2, 3, 0, 99]) =
      .ok ⟨[1101, 2, 3, 0, 99], [3, 2, 3, 0, 99], 4, true, [], []⟩ := by
  exact ⟨by decide, by decide, by decide⟩

/-- C2, refuted on the code: `run` stores the caller's input vector
without the reversal its own comment announces, and input instructions
`pop` from the end, so the program `[3,0,3,1,4,0,4,1,99]` run with input
`[10, 20]` echoes `[20, 10]` — the first input instruction receives the
LAST supplied value, not the first. -/
theorem inputs_consumed_in_reverse_order :
    IntcodeComputer.run (some [10, 20]) 20 (fromProgram [3, 0, 3, 1, 4, 0, 4, 1, 99]) =
      .ok ⟨[3, 0, 3, 1, 4, 0, 4, 1, 99], [20, 10, 3, 1, 4, 0, 4, 1, 99],
           8, true, [], [20, 10]⟩ := by
  decide

/-- C3: whenever the execution loop, started from a non-halted state,
terminates successfully, the final state has the halted flag set and its
instruction pointer still names the halt instruction that was decoded;
once halted, the loop processes nothing further — `execute` and `run`
(with no fresh input) return the state unchanged under any fuel. -/
theorem execute_reaches_halt_and_stops (fuel : Nat) (s s1 : IntcodeComputer)
    (hs : s.halted = false) (h : IntcodeComputer.execute fuel s = .ok s1) :
    s1.halted = true ∧
    Instruction.decode s1.ram s1.ip = .ok .Halt ∧
    (∀ f, IntcodeComputer.execute f s1 = .ok s1) ∧
    (∀ f, IntcodeComputer.run none f s1 = .ok s1) := by
  induction fuel generalizing s with
  | zero =>
    unfold IntcodeComputer.execute at h
    rw [hs] at h
    simp at h
  | succ n ih =>
    unfold IntcodeComputer.execute at h
    rw [hs] at h
    simp only [Bool.false_eq_true, if_false] at h
    rcases hstep : s.process_instruction with s2 | ⟨e, s2⟩
    · rw [hstep] at h
      replace h : IntcodeComputer.execute n s2 = RunResult.ok s1 := h
      by_cases h2 : s2.halted = true
      · rw [execute_of_halted n s2 h2] at h
        cases h
        have hd := step_to_halted hs hstep h2
        refine ⟨h2, hd.1, fun f => execute_of_halted f s1 h2, fun f => ?_⟩
        unfold IntcodeComputer.run
        exact execute_of_halted f s1 h2
      · exact ih s2 (Bool.not_eq_true _ ▸ h2) h
    · rw [hstep] at h
      replace h : RunResult.fault e s2 = RunResult.ok s1 := h
      cases h

/-- C3 witness: the one-instruction program `[99]`. -/
theorem execute_reaches_halt_and_stops_witness :
    ((fromProgram [99]).halted = false ∧
      IntcodeComputer.execute 1 (fromProgram [99]) = .ok ⟨[99], [99], 0, true, [], []⟩) ∧
    (⟨[99], [99], 0, true, [], []⟩ : IntcodeComputer).halted = true ∧
    Instruction.decode [99] 0 = .ok .Halt ∧
    IntcodeComputer.execute 3 ⟨[99], [99], 0, true, [], []⟩ =
      .ok ⟨[99], [99], 0, true, [], []⟩ ∧
    IntcodeComputer.run none 3 ⟨[99], [99], 0, true, [], []⟩ =
      .ok ⟨[99], [99], 0, true, [], []⟩ := by
  have h := execute_reaches_halt_and_stops 1 (fromProgram [99])
    ⟨[99], [99], 0, true, [], []⟩ (by decide) (by decide)
  exact ⟨⟨by decide, by decide⟩, h.1, h.2.1, h.2.2.1 3, h.2.2.2 3⟩

/-- C9: an input instruction decoded while the pending input queue is
empty makes the step, the execution loop, and `run` abort at once with
the input-exhaustion error, leaving the state exactly as it was — no
further instruction is processed. -/
theorem input_exhaustion_halts_run (s : IntcodeComputer) (d : Nat)
    (hh : s.halted = false) (hi : s.input = [])
    (hd : Instruction.decode s.ram s.ip = .ok (.Input d)) :
    s.process_instruction = .fault .inputExhausted s ∧
    (∀ fuel, IntcodeComputer.execute (fuel + 1) s = .fault .inputExhausted s) ∧
    (∀ fuel, IntcodeComputer.run none (fuel + 1) s = .fault .inputExhausted s) := by
  have hstep : s.process_instruction = .fault .inputExhausted s := by
    unfold IntcodeComputer.process_instruction
    simp only [hd, hi]
    rfl
  refine ⟨hstep, fun fuel => ?_, fun fuel => ?_⟩
  · unfold IntcodeComputer.execute
    rw [hh]
    simp only [Bool.false_eq_true, if_false]
    rw [hstep]
  · unfold IntcodeComputer.run
    unfold IntcodeComputer.execute
    rw [hh]
    simp only [Bool.false_eq_true, if_false]
    rw [hstep]

/-- C9 witness: the program `[3, 0, 99]` with nothing in the queue. -/
theorem input_exhaustion_halts_run_witness :
    (fromProgram [3, 0, 99]).process_instruction =
      .fault .inputExhausted (fromProgram [3, 0, 99]) ∧
    IntcodeComputer.execute 5 (fromProgram [3, 0, 99]) =
      .fault .inputExhausted (fromProgram [3, 0, 99]) ∧
    IntcodeComputer.run none 5 (fromProgram [3, 0, 99]) =
      .fault .inputExhausted (fromProgram [3, 0, 99]) := by
  have h := input_exhaustion_halts_run (fromProgram [3, 0, 99]) 0
    (by decide) (by decide) (by decide)
  exact ⟨h.1, h.2.1 4, h.2.2 4⟩

/-- C4: from any state reachable from a freshly constructed interpreter
(by supplying input, executing steps — faulting or not — seeding memory,
or resetting), `reset()` restores exactly the freshly constructed state:
memory equal element-for-element to the parsed program, instruction
pointer 0, halted flag clear, input and output empty; it is total and
idempotent. -/
theorem reset_restores_baseline (text : String) (s0 s : IntcodeComputer)
    (hnew : IntcodeComputer.new text = .ok s0) (hr : Reachable s0 s) :
    s.reset = s0 ∧
    s.reset.ram = s0.program ∧ s.reset.ip = 0 ∧ s.reset.halted = false ∧
    s.reset.input = [] ∧ s.reset.output = [] ∧
    s.reset.reset = s.reset := by
  have hp : s.program = s0.program := hr.program_eq
  have hshape : s0.ram = s0.program ∧ s0.ip = 0 ∧ s0.halted = false ∧
      s0.input = [] ∧ s0.output = [] := by
    unfold IntcodeComputer.new at hnew
    rcases hparse : ((splitOnComma (trimChars text.data)).map trimChars).mapM parseI32
      with e | prog
    · rw [hparse] at hnew
      cases hnew
    · rw [hparse] at hnew
      cases hnew
      exact ⟨rfl, rfl, rfl, rfl, rfl⟩
  have hres : s.reset = s0 := by
    unfold IntcodeComputer.reset
    rcases s0 with ⟨p0, r0, i0, h0, in0, out0⟩
    simp only at hshape hp
    rcases hshape with ⟨h1, h2, h3, h4, h5⟩
    subst h1 h2 h3 h4 h5
    simp [hp]
  exact ⟨hres, by rw [hres, hshape.1], by rw [hres, hshape.2.1],
    by rw [hres, hshape.2.2.1], by rw [hres, hshape.2.2.2.1],
    by rw [hres, hshape.2.2.2.2], rfl⟩

/-- C4 witness: the interpreter of `"99"`, after one executed step that
halts it, resets back to the freshly constructed state, idempotently. -/
theorem reset_restores_baseline_witness :
    (⟨[99], [99], 0, true, [], []⟩ : IntcodeComputer).reset = fromProgram [99] ∧
    (⟨[99], [99], 0, true, [], []⟩ : IntcodeComputer).reset.reset =
      (⟨[99], [99], 0, true, [], []⟩ : IntcodeComputer).reset := by
  have h := reset_restores_baseline "99" (fromProgram [99])
    ⟨[99], [99], 0, true, [], []⟩ (by decide)
    (Reachable.step_ok Reachable.refl (by decide))
  exact ⟨h.1, h.2.2.2.2.2.2⟩


/-! ## Opcode-word decode characterisation (C6 support) -/

theorem tdiv_hundred_coe (a : Nat) : (a : Int).tdiv 100 = ((a / 100 : Nat) : Int) := rfl
theorem tdiv_ten_coe (a : Nat) : (a : Int).tdiv 10 = ((a / 10 : Nat) : Int) := rfl
theorem tmod_ten_coe (a : Nat) : (a : Int).tmod 10 = ((a % 10 : Nat) : Int) := rfl
theorem tmod_hundred_coe (a : Nat) : (a : Int).tmod 100 = ((a % 100 : Nat) : Int) := rfl
theorem emod_256_coe (a : Nat) : (a : Int).emod 256 = ((a % 256 : Nat) : Int) := rfl

theorem neg_tmod_eq (a b : Int) : (-a).tmod b = -(a.tmod b) := by
  simp only [Int.tmod_def, Int.neg_tdiv]
  ring

theorem modeOfDigit_coe (k : Nat) (w : Int) :
    modeOfDigit (k : Int) w =
      if k = 0 then .ok .Address
      else if k = 1 then .ok .Value
      else .error (.invalidMode (k : Int) w) := by
  unfold modeOfDigit
  simp only [Nat.cast_eq_zero, Nat.cast_eq_one]

theorem i32AsU8_coe (a : Nat) (h : a < 256) : i32AsU8 (a : Int) = a := by
  unfold i32AsU8
  rw [emod_256_coe, Nat.mod_eq_of_lt h]
  simp

theorem div_chain_1000 (n : Nat) : n / 100 / 10 = n / 1000 := by omega
theorem div_chain_10000 (n : Nat) : n / 1000 / 10 = n / 10000 := by omega
theorem div_chain_100000 (n : Nat) : n / 10000 / 10 = n / 100000 := by omega

theorem modeTree_of_le (k : Nat) (w : Int) (h : k ≤ 1) :
    (if k = 0 then (Except.ok ParameterMode.Address : Except Err ParameterMode)
     else if k = 1 then .ok .Value else .error (.invalidMode (k : Int) w)) =
      .ok (modeDigitSpec k) := by
  rcases Nat.le_one_iff_eq_zero_or_eq_one.mp h with h0 | h0 <;> subst h0 <;> rfl

theorem modeTree_of_ge (k : Nat) (w : Int) (h : 2 ≤ k) :
    (if k = 0 then (Except.ok ParameterMode.Address : Except Err ParameterMode)
     else if k = 1 then .ok .Value else .error (.invalidMode (k : Int) w)) =
      .error (.invalidMode (k : Int) w) := by
  rw [if_neg (by omega), if_neg (by omega)]

theorem tryFrom_coe (n : Nat) :
    Opcode.tryFrom (n : Int) =
      if 2 ≤ n / 100 % 10 then .error (.invalidMode ((n / 100 % 10 : Nat) : Int) (n : Int))
      else if 2 ≤ n / 1000 % 10 then .error (.invalidMode ((n / 1000 % 10 : Nat) : Int) (n : Int))
      else if 2 ≤ n / 10000 % 10 then .error (.invalidMode ((n / 10000 % 10 : Nat) : Int) (n : Int))
      else if 0 < n / 100000 then .error (.tooManyModes (n : Int))
      else .ok ⟨n % 100, (modeDigitSpec (n / 100 % 10), modeDigitSpec (n / 1000 % 10),
                          modeDigitSpec (n / 10000 % 10))⟩ := by
  unfold Opcode.tryFrom
  simp only [tdiv_hundred_coe, tdiv_ten_coe, tmod_ten_coe, tmod_hundred_coe,
    div_chain_1000, div_chain_10000, div_chain_100000, modeOfDigit_coe]
  rcases Nat.lt_or_ge (n / 100 % 10) 2 with h1 | h1
  · have m1 := modeTree_of_le (n / 100 % 10) (n : Int) (by omega)
    rcases Nat.lt_or_ge (n / 1000 % 10) 2 with h2 | h2
    · have m2 := modeTree_of_le (n / 1000 % 10) (n : Int) (by omega)
      rcases Nat.lt_or_ge (n / 10000 % 10) 2 with h3 | h3
      · have m3 := modeTree_of_le (n / 10000 % 10) (n : Int) (by omega)
        simp only [m1, m2, m3]
        rcases Nat.eq_zero_or_pos (n / 100000) with h4 | h4
        · have hcInt : ¬(0 < ((n / 100000 : Nat) : Int)) := by
            rw [h4]
            simp
          have hop : i32AsU8 ((n % 100 : Nat) : Int) = n % 100 := i32AsU8_coe _ (by omega)
          rw [if_neg hcInt, hop,
            if_neg (by omega : ¬(2 ≤ n / 100 % 10)),
            if_neg (by omega : ¬(2 ≤ n / 1000 % 10)),
            if_neg (by omega : ¬(2 ≤ n / 10000 % 10)),
            if_neg (by omega : ¬(0 < n / 100000))]
        · have hcInt : (0 : Int) < ((n / 100000 : Nat) : Int) := by exact_mod_cast h4
          rw [if_pos hcInt,
            if_neg (by omega : ¬(2 ≤ n / 100 % 10)),
            if_neg (by omega : ¬(2 ≤ n / 1000 % 10)),
            if_neg (by omega : ¬(2 ≤ n / 10000 % 10)),
            if_pos (h4 : 0 < n / 100000)]
      · have m3 := modeTree_of_ge (n / 10000 % 10) (n : Int) h3
        simp only [m1, m2, m3]
        rw [if_neg (by omega : ¬(2 ≤ n / 100 % 10)),
          if_neg (by omega : ¬(2 ≤ n / 1000 % 10)),
          if_pos (h3 : 2 ≤ n / 10000 % 10)]
    · have m2 := modeTree_of_ge (n / 1000 % 10) (n : Int) h2
      simp only [m1, m2]
      rw [if_neg (by omega : ¬(2 ≤ n / 100 % 10)), if_pos (h2 : 2 ≤ n / 1000 % 10)]
  · have m1 := modeTree_of_ge (n / 100 % 10) (n : Int) h1
    simp only [m1]
    rw [if_pos (h1 : 2 ≤ n / 100 % 10)]

theorem decodeRejectsWord_coe_iff (n : Nat) :
    decodeRejectsWord (n : Int) = true ↔ ¬ wordAccepted n := by
  unfold decodeRejectsWord
  rw [tryFrom_coe n]
  split_ifs <;> simp [wordAccepted] <;> omega

theorem decodeRejectsWord_neg (w : Int) (hw : w < 0) : decodeRejectsWord w = true := by
  obtain ⟨v, hv, rfl⟩ : ∃ v : Int, 0 < v ∧ w = -v := ⟨-w, by omega, by ring⟩
  have hv0 : (0 : Int) ≤ v := le_of_lt hv
  have q1 : (0 : Int) ≤ v / 100 := Int.ediv_nonneg hv0 (by norm_num)
  have q2 : (0 : Int) ≤ v / 1000 := Int.ediv_nonneg hv0 (by norm_num)
  have q3 : (0 : Int) ≤ v / 10000 := Int.ediv_nonneg hv0 (by norm_num)
  have t1 : ((-v).tdiv 100) = -(v / 100) := by
    rw [Int.neg_tdiv, Int.tdiv_eq_ediv hv0 (by norm_num)]
  have t2 : ((-v).tdiv 100).tdiv 10 = -(v / 1000) := by
    rw [t1, Int.neg_tdiv, Int.tdiv_eq_ediv q1 (by norm_num)]
    congr 1
    omega
  have t3 : (((-v).tdiv 100).tdiv 10).tdiv 10 = -(v / 10000) := by
    rw [t2, Int.neg_tdiv, Int.tdiv_eq_ediv q2 (by norm_num)]
    congr 1
    omega
  have t4 : ((((-v).tdiv 100).tdiv 10).tdiv 10).tdiv 10 = -(v / 100000) := by
    rw [t3, Int.neg_tdiv, Int.tdiv_eq_ediv q3 (by norm_num)]
    congr 1
    omega
  have d1 : ((-v).tdiv 100).tmod 10 = -((v / 100) % 10) := by
    rw [t1, neg_tmod_eq, Int.tmod_eq_emod q1 (by norm_num)]
  have d2 : (((-v).tdiv 100).tdiv 10).tmod 10 = -((v / 1000) % 10) := by
    rw [t2, neg_tmod_eq, Int.tmod_eq_emod q2 (by norm_num)]
  have d3 : ((((-v).tdiv 100).tdiv 10).tdiv 10).tmod 10 = -((v / 10000) % 10) := by
    rw [t3, neg_tmod_eq, Int.tmod_eq_emod q3 (by norm_num)]
  have dm : (-v).tmod 100 = -(v % 100) := by
    rw [neg_tmod_eq, Int.tmod_eq_emod hv0 (by norm_num)]
  unfold decodeRejectsWord Opcode.tryFrom modeOfDigit i32AsU8
  simp only [d1, d2, d3, t4, dm]
  split_ifs
  all_goals try rfl
  all_goals try omega
  all_goals simp only [Except.ok.injEq, Bool.not_eq_true', Bool.or_eq_false_iff,
    beq_eq_false_iff_ne, ne_eq]
  all_goals
    rcases eq_or_lt_of_le (Int.emod_nonneg v (show (100 : Int) ≠ 0 by norm_num)) with h0 | h0
  · rw [← h0]
    decide
  · have he : (-(v % 100)).emod 256 = 256 - v % 100 := by
      rw [show -(v % 100) = 256 - v % 100 + 256 * (-1) by ring]
      show (256 - v % 100 + 256 * (-1)) % 256 = 256 - v % 100
      rw [Int.add_mul_emod_self_left]
      have hlt : v % 100 < 100 := Int.emod_lt_of_pos v (by norm_num)
      exact Int.emod_eq_of_lt (by omega) (by omega)
    rw [he]
    have hlt : v % 100 < 100 := Int.emod_lt_of_pos v (by norm_num)
    omega

/-- C6: decoding an opcode word is rejected as an invalid-opcode fault
exactly when the base code (the lowest two decimal digits) is not one of
1, 2, 3, 4, 99, or a parameter-mode digit beyond them falls outside
`{0, 1}`, or a nonzero digit remains after the three mode slots; every
negative word is rejected (it encodes no decimal digit string); accepted
words yield the base code and the three modes least-significant-first,
with 1002 ↦ (2, address/value/address), 11101 ↦ (1, value×3) and
99 ↦ (99, all-address). -/
theorem opcode_word_decode_characterisation :
    (∀ n : Nat, decodeRejectsWord (n : Int) = true ↔ ¬ wordAccepted n) ∧
    (∀ w : Int, w < 0 → decodeRejectsWord w = true) ∧
    (∀ n : Nat, wordAccepted n →
      Opcode.tryFrom (n : Int) =
        .ok ⟨n % 100, (modeDigitSpec (n / 100 % 10), modeDigitSpec (n / 1000 % 10),
                       modeDigitSpec (n / 10000 % 10))⟩) ∧
    Opcode.tryFrom 1002 = .ok ⟨2, (.Address, .Value, .Address)⟩ ∧
    Opcode.tryFrom 11101 = .ok ⟨1, (.Value, .Value, .Value)⟩ ∧
    Opcode.tryFrom 99 = .ok ⟨99, (.Address, .Address, .Address)⟩ := by
  refine ⟨decodeRejectsWord_coe_iff, decodeRejectsWord_neg, ?_, by decide, by decide, by decide⟩
  intro n hn
  rw [tryFrom_coe n]
  unfold wordAccepted at hn
  rw [if_neg (by omega), if_neg (by omega), if_neg (by omega), if_neg (by omega)]

/-- C6 witness: the characterisation applied at words 1002, -2 and 11101. -/
theorem opcode_word_decode_characterisation_witness :
    (decodeRejectsWord 1002 = true ↔ ¬ wordAccepted 1002) ∧
    decodeRejectsWord (-2) = true ∧
    Opcode.tryFrom 11101 = .ok ⟨1, (.Value, .Value, .Value)⟩ := by
  have h := opcode_word_decode_characterisation
  exact ⟨h.1 1002, h.2.1 (-2) (by decide), h.2.2.1 11101 (by decide)⟩

end Aoc2019
